import Mathlib

/-!
Shallow embedding of the raster-to-toolpath compiler `png_to_gcode`
(src/img2gcode.py) of the laserCutConverter repository, together with
theorems settling the frozen claims about it.

Modelling conventions:
* Machine arithmetic of the Python source is exact here: Python `int()`
  applied to a nonnegative float is truncation toward zero, modelled on ℚ
  by `pyInt`.
* The raster the row loop reads is the resampled image (`image.resize(...)`
  at line 56); the external Lanczos resampler is not part of the repository,
  so `Raster` is an abstract grid and theorems quantify over it.
* Python negative indexing `pixels[x, -y]` on an image of height `h`
  addresses row `(h - y) % h`, modelled by `vFlip`.
* The emitted G-code lines are modelled by the inductive `Instr`, one
  constructor per distinct line shape the source can append (plus
  `laserOn`, the M3-style instruction the spec vocabulary names but the
  source never emits). Coordinates are carried as column and row indices;
  the physical coordinate of index `i` is `i / linesPerMm` millimeters.
-/

namespace LaserCut

/-- Python `int(q)` on a real value: truncation toward zero. -/
def pyInt (q : ℚ) : ℤ := if 0 ≤ q then ⌊q⌋ else ⌈q⌉

/-- The power quantizer, line 86 of src/img2gcode.py:
`power = int((1 - pixels[x, -y] / 255) * laser_max_power)`. -/
def quantize (s : ℕ) (P : ℤ) : ℤ := pyInt ((1 - (s : ℚ) / 255) * (P : ℚ))

/-- The resampled grayscale raster: width, height and an 8-bit sample at
each column and row (row 0 is the top row, as in PIL). -/
structure Raster where
  w : ℕ
  h : ℕ
  pix : ℕ → ℕ → ℕ

/-- Python negative row indexing: `pixels[x, -y]` on an image of height `h`
reads image row `(h - y) % h`, that is row 0 when `y = 0` and row `h - y`
when `1 ≤ y ≤ h`. -/
def vFlip (h y : ℕ) : ℕ := (h - y) % h

/-- The sample the row loop reads for program row `y`, column `x`:
`pixels[x, -y]` (lines 78 and 86). -/
def pixAt (r : Raster) (x y : ℕ) : ℕ := r.pix x (vFlip r.h y)

/-- The blank-row test, line 78:
`all(pixels[x, -y] == 255 for x in range(new_width))`. -/
def rowBlank (r : Raster) (y : ℕ) : Bool :=
  (List.range r.w).all fun x => pixAt r x y == 255

/-- The quantized powers of program row `y`, left to right (line 86 applied
to every column of the row). -/
def rowPowers (r : Raster) (P : ℤ) (y : ℕ) : List ℤ :=
  (List.range r.w).map fun x => quantize (pixAt r x y) P

/-- The run-length loop of lines 85-100, past its first column: `cur` is the
power of the open run, `x` the index of the next column, and the remaining
powers are the argument list. On a power change the open run is closed with
end column `x - 1` (line 91-92); after the last column the open run is
closed at the final column (lines 98-100, where `x` has reached the row
width). Each emitted pair is (end column, power). -/
def closeRuns (cur : ℤ) (x : ℕ) : List ℤ → List (ℕ × ℤ)
  | [] => [(x - 1, cur)]
  | p :: rest =>
      if p = cur then closeRuns cur (x + 1) rest
      else (x - 1, cur) :: closeRuns p (x + 1) rest

/-- The motion pairs (end column, power) emitted for one row of quantized
powers: the first column opens a run without emitting (lines 88, 93-95 with
`current_power = None`), then `closeRuns` processes the rest. -/
def rowMoves : List ℤ → List (ℕ × ℤ)
  | [] => []
  | p :: rest => closeRuns p 1 rest

/-- One emitted G-code line. Each constructor is one line shape the source
appends; `laserOn` (an M3-style laser-on line) exists in the spec
vocabulary but is never produced by the source. `move e y p` stands for
`G1 X{e * pixel_size} Y{y * pixel_size} S{p}`; `fastReturn y f` for
`G1 X0 Y{(y+1) * pixel_size} F{f}`; `setFeed f` for `G1 F{f}`. -/
inductive Instr where
  | setUnits
  | absPos
  | laserOff
  | laserOn
  | setFeed (f : ℤ)
  | thumbnailBlock (w h : ℕ)
  | rowComment (y : ℕ)
  | move (xEnd y : ℕ) (power : ℤ)
  | fastReturn (y : ℕ) (f : ℤ)
  | returnOrigin
  | endProgram
deriving DecidableEq, Repr

/-- The fixed preamble, lines 64-69: units, absolute positioning, laser
off, initial feed rate. -/
def preamble (fr : ℤ) : List Instr :=
  [Instr.setUnits, Instr.absPos, Instr.laserOff, Instr.setFeed fr]

/-- The fixed footer, lines 110-112: return to origin, laser off, end of
program. -/
def footer : List Instr := [Instr.returnOrigin, Instr.laserOff, Instr.endProgram]

/-- The lines appended for one non-blank row `y`, lines 81-105: the row
comment, the motion lines of the run-length pass, laser off, the fast
return to column 0 at the fast-return feed rate, and the feed-rate
restore. -/
def rowBlock (r : Raster) (P fr frr : ℤ) (y : ℕ) : List Instr :=
  Instr.rowComment y ::
    ((rowMoves (rowPowers r P y)).map fun m => Instr.move m.1 y m.2)
    ++ [Instr.laserOff, Instr.fastReturn y frr, Instr.setFeed fr]

/-- The per-row body of the program, lines 76-107: rows in order 0 to
`h - 1`, a blank row contributing nothing. -/
def gBody (r : Raster) (P fr frr : ℤ) : List Instr :=
  (List.range r.h).flatMap fun y =>
    if rowBlank r y then [] else rowBlock r P fr frr y

/-- The whole emitted program for a resampled raster: the thumbnail block is
inserted at position 0 (line 29), before the preamble, then body, then
footer. -/
def pngToGcode (r : Raster) (P fr frr : ℤ) : List Instr :=
  Instr.thumbnailBlock r.w r.h :: (preamble fr ++ gBody r P fr frr ++ footer)

/-- 25.4 millimeters per inch, exactly. -/
def mmPerInch : ℚ := 127 / 5

/-- Target raster dimension, lines 50-53:
`int(src / dpi * 25.4 * lines_per_mm)`. -/
def newDim (src : ℕ) (dpi : ℚ) (lpm : ℤ) : ℤ :=
  pyInt ((src : ℚ) / dpi * mmPerInch * (lpm : ℚ))

/-- The unhandled Python exceptions the pipeline can raise: division by
zero (line 49 when `lines_per_mm = 0`, line 50 when `dpi = 0`), the
ValueError Pillow raises inside `image.resize` at line 56 when a computed
target dimension is smaller than 1, and a failure inside the thumbnail
encoder (lines 15-29, which have no try/except, so any failure propagates
and aborts the run). -/
inductive PyError where
  | zeroDivision
  | valueError
  | thumbnailFailure
deriving DecidableEq, Repr

/-- The pipeline from the source image dimensions on, lines 44-116:
compute the target dimensions, resample (the external resampler is a
parameter giving the resampled pixel grid for the target dimensions),
build the program. `encodeOk` tells whether the external PNG encoding of
the thumbnail succeeds; the source has no handler around it, so failure
aborts with no program. No validation of `P`, `fr`, `frr` exists in the
source; `lpm = 0` and `dpi = 0` raise bare ZeroDivisionError at lines
49-50, and a target dimension below 1 makes `image.resize` at line 56
raise ValueError before anything after it runs. -/
def pngToGcodeFull (srcW srcH : ℕ) (dpi : ℚ) (resample : ℕ → ℕ → ℕ → ℕ → ℕ)
    (encodeOk : Bool) (P fr frr lpm : ℤ) : Except PyError (List Instr) :=
  if lpm = 0 then Except.error PyError.zeroDivision
  else if dpi = 0 then Except.error PyError.zeroDivision
  else if newDim srcW dpi lpm ≤ 0 ∨ newDim srcH dpi lpm ≤ 0 then
    Except.error PyError.valueError
  else if encodeOk then
    Except.ok (pngToGcode
      ⟨(newDim srcW dpi lpm).toNat, (newDim srcH dpi lpm).toNat,
        resample (newDim srcW dpi lpm).toNat (newDim srcH dpi lpm).toNat⟩ P fr frr)
  else Except.error PyError.thumbnailFailure

/-- The value carried by each maximal run of equal adjacent elements, in
order: collapses consecutive duplicates. -/
def runValues : List ℤ → List ℤ
  | [] => []
  | [a] => [a]
  | a :: b :: t => if a = b then runValues (b :: t) else a :: runValues (b :: t)

/-- The number of maximal constant runs of a list. -/
def runCount (l : List ℤ) : ℕ := (runValues l).length

/-- Whether an instruction is a motion (segment) line `G1 X.. Y.. S..`. -/
def isMove : Instr → Bool
  | Instr.move _ _ _ => true
  | _ => false

/-- Whether a run of the pipeline produced a program (no exception). -/
def exceptOk : Except PyError (List Instr) → Bool
  | Except.ok _ => true
  | Except.error _ => false

/-- A concrete 1×2 raster whose top image row (row 0) is black and whose
bottom image row is white, used to exhibit the vertical addressing of the
row loop. -/
def stripRaster : Raster := ⟨1, 2, fun _ y => if y = 0 then 0 else 255⟩

/-! ### Helper lemmas about the run-length pass -/

theorem closeRuns_ne_nil (l : List ℤ) : ∀ (c : ℤ) (x : ℕ), closeRuns c x l ≠ [] := by
  induction l with
  | nil => intro c x; simp [closeRuns]
  | cons p t ih =>
      intro c x
      by_cases h : p = c <;> simp [closeRuns, h, ih]

theorem closeRuns_map_snd (l : List ℤ) : ∀ (c : ℤ) (x : ℕ),
    (closeRuns c x l).map Prod.snd = runValues (c :: l) := by
  induction l with
  | nil => intro c x; simp [closeRuns, runValues]
  | cons p t ih =>
      intro c x
      by_cases h : p = c
      · subst h
        simp [closeRuns, runValues, ih]
      · simp [closeRuns, runValues, h, Ne.symm h, ih]

theorem closeRuns_last (l : List ℤ) : ∀ (c : ℤ) (x : ℕ),
    ((closeRuns c x l).getLast?).map Prod.fst = some (x + l.length - 1) := by
  induction l with
  | nil => intro c x; simp [closeRuns]
  | cons p t ih =>
      intro c x
      by_cases h : p = c
      · rw [show closeRuns c x (p :: t) = closeRuns c (x + 1) t from by
          simp [closeRuns, h]]
        rw [ih c (x + 1)]
        congr 1
        simp only [List.length_cons]
        omega
      · rw [show closeRuns c x (p :: t) = (x - 1, c) :: closeRuns p (x + 1) t from by
          simp [closeRuns, h]]
        obtain ⟨hd, tl, hrest⟩ := List.exists_cons_of_ne_nil (closeRuns_ne_nil t p (x + 1))
        have hih := ih p (x + 1)
        rw [hrest] at hih ⊢
        rw [List.getLast?_cons_cons, hih]
        congr 1
        simp only [List.length_cons]
        omega

theorem closeRuns_fst_ge (l : List ℤ) : ∀ (c : ℤ) (x : ℕ),
    ∀ m ∈ closeRuns c x l, x - 1 ≤ m.1 := by
  induction l with
  | nil =>
      intro c x m hm
      simp [closeRuns] at hm
      simp [hm]
  | cons p t ih =>
      intro c x m hm
      by_cases h : p = c
      · rw [show closeRuns c x (p :: t) = closeRuns c (x + 1) t from by
          simp [closeRuns, h]] at hm
        have := ih c (x + 1) m hm
        omega
      · rw [show closeRuns c x (p :: t) = (x - 1, c) :: closeRuns p (x + 1) t from by
          simp [closeRuns, h]] at hm
        rw [List.mem_cons] at hm
        rcases hm with rfl | hm
        · simp
        · have := ih p (x + 1) m hm
          omega

theorem closeRuns_chain (l : List ℤ) : ∀ (c : ℤ) (x : ℕ), 1 ≤ x →
    List.Chain' (fun a b : ℕ × ℤ => a.1 < b.1) (closeRuns c x l) := by
  induction l with
  | nil => intro c x _; simp [closeRuns]
  | cons p t ih =>
      intro c x hx
      by_cases h : p = c
      · rw [show closeRuns c x (p :: t) = closeRuns c (x + 1) t from by
          simp [closeRuns, h]]
        exact ih c (x + 1) (by omega)
      · rw [show closeRuns c x (p :: t) = (x - 1, c) :: closeRuns p (x + 1) t from by
          simp [closeRuns, h]]
        refine List.chain'_cons'.mpr ⟨?_, ih p (x + 1) (by omega)⟩
        intro b hb
        have hmem : b ∈ closeRuns p (x + 1) t := List.mem_of_mem_head? hb
        have hge := closeRuns_fst_ge t p (x + 1) b hmem
        simp only at hge ⊢
        omega

theorem closeRuns_replicate (n : ℕ) : ∀ (c : ℤ) (x : ℕ),
    closeRuns c x (List.replicate n c) = [(x + n - 1, c)] := by
  induction n with
  | zero => intro c x; simp [closeRuns]
  | succ k ih =>
      intro c x
      rw [List.replicate_succ]
      rw [show closeRuns c x (c :: List.replicate k c) = closeRuns c (x + 1) (List.replicate k c)
        from by simp [closeRuns]]
      rw [ih c (x + 1)]
      have : x + 1 + k - 1 = x + (k + 1) - 1 := by omega
      rw [this]

theorem rowMoves_map_snd (l : List ℤ) : (rowMoves l).map Prod.snd = runValues l := by
  cases l with
  | nil => simp [rowMoves, runValues]
  | cons p t => simpa [rowMoves] using closeRuns_map_snd t p 1

theorem runValues_subset (l : List ℤ) : ∀ a ∈ runValues l, a ∈ l := by
  induction l with
  | nil => simp [runValues]
  | cons p t ih =>
      intro a ha
      cases t with
      | nil =>
          simp [runValues] at ha
          simp [ha]
      | cons q u =>
          by_cases h : p = q
          · rw [show runValues (p :: q :: u) = runValues (q :: u) from by
              simp [runValues, h]] at ha
            exact List.mem_cons_of_mem p (ih a ha)
          · rw [show runValues (p :: q :: u) = p :: runValues (q :: u) from by
              simp [runValues, h]] at ha
            rw [List.mem_cons] at ha
            rcases ha with rfl | ha
            · simp
            · exact List.mem_cons_of_mem p (ih a ha)

theorem runValues_length_le (l : List ℤ) : (runValues l).length ≤ l.length := by
  induction l with
  | nil => simp [runValues]
  | cons p t ih =>
      cases t with
      | nil => simp [runValues]
      | cons q u =>
          by_cases h : p = q
          · rw [show runValues (p :: q :: u) = runValues (q :: u) from by
              simp [runValues, h]]
            simp only [List.length_cons] at ih ⊢
            omega
          · rw [show runValues (p :: q :: u) = p :: runValues (q :: u) from by
              simp [runValues, h]]
            simp only [List.length_cons] at ih ⊢
            omega

/-! ### Helper lemmas about the quantizer and the program assembly -/

theorem quantize_zero (P : ℤ) : quantize 0 P = P := by
  have h0 : ((0 : ℕ) : ℚ) / 255 = 0 := by norm_num
  rw [quantize, h0]
  rw [show (1 - 0) * (P : ℚ) = (P : ℚ) from by ring]
  rw [pyInt]
  split <;> simp

theorem quantize_mid : quantize 128 100 = 49 := by
  rw [quantize, pyInt]
  rw [if_pos (by norm_num)]
  rw [show (1 - (128 : ℕ) / 255) * ((100 : ℤ) : ℚ) = 2540 / 51 from by norm_num]
  rw [Int.floor_eq_iff]
  norm_num

theorem newDim_two : newDim 2 300 10 = 1 := by
  rw [newDim, pyInt]
  rw [show ((2 : ℕ) : ℚ) / 300 * mmPerInch * ((10 : ℤ) : ℚ) = 127 / 75 from by
    rw [mmPerInch]; norm_num]
  rw [if_pos (by norm_num)]
  rw [Int.floor_eq_iff]
  norm_num

theorem newDim_twelve : newDim 12 300 10 = 10 := by
  rw [newDim, pyInt]
  rw [show ((12 : ℕ) : ℚ) / 300 * mmPerInch * ((10 : ℤ) : ℚ) = 254 / 25 from by
    rw [mmPerInch]; norm_num]
  rw [if_pos (by norm_num)]
  rw [Int.floor_eq_iff]
  norm_num

theorem rowPowers_length (r : Raster) (P : ℤ) (y : ℕ) :
    (rowPowers r P y).length = r.w := by
  simp [rowPowers]

theorem rowBlank_eq_false (r : Raster) (y : ℕ) :
    rowBlank r y = false ↔ ∃ x, x < r.w ∧ pixAt r x y ≠ 255 := by
  rw [rowBlank, List.all_eq_false]
  constructor
  · rintro ⟨x, hx, hne⟩
    exact ⟨x, List.mem_range.mp hx, by simpa using hne⟩
  · rintro ⟨x, hx, hne⟩
    exact ⟨x, List.mem_range.mpr hx, by simpa using hne⟩

theorem rowBlank_false_w_pos {r : Raster} {y : ℕ} (h : rowBlank r y = false) :
    0 < r.w := by
  obtain ⟨x, hx, _⟩ := (rowBlank_eq_false r y).mp h
  omega

theorem laserOn_not_mem (r : Raster) (P fr frr : ℤ) :
    Instr.laserOn ∉ pngToGcode r P fr frr := by
  intro hm
  simp [pngToGcode, preamble, footer, gBody] at hm
  obtain ⟨y, hy, hbf, hmem⟩ := hm
  simp [rowBlock] at hmem

theorem move_mem_pngToGcode {r : Raster} {P fr frr : ℤ} {e y : ℕ} {p : ℤ}
    (hm : Instr.move e y p ∈ pngToGcode r P fr frr) :
    ∃ x, x < r.w ∧ p = quantize (pixAt r x y) P := by
  simp [pngToGcode, preamble, footer, gBody] at hm
  obtain ⟨y2, hy2, hbf, hmem⟩ := hm
  simp [rowBlock] at hmem
  obtain ⟨a, b, hmemab, he, hy, hp⟩ := hmem
  subst hy
  have hsnd : p ∈ (rowMoves (rowPowers r P y2)).map Prod.snd := by
    rw [List.mem_map]
    exact ⟨(a, b), hmemab, hp⟩
  rw [rowMoves_map_snd] at hsnd
  have hps : p ∈ rowPowers r P y2 := runValues_subset _ p hsnd
  simp only [rowPowers, List.mem_map, List.mem_range] at hps
  obtain ⟨x, hx, hq⟩ := hps
  exact ⟨x, hx, hq.symm⟩

theorem pngToGcode_getLast (r : Raster) (P fr frr : ℤ) :
    (pngToGcode r P fr frr).getLast? = some Instr.endProgram := by
  have heq : pngToGcode r P fr frr =
      (Instr.thumbnailBlock r.w r.h ::
        (preamble fr ++ gBody r P fr frr ++ [Instr.returnOrigin, Instr.laserOff]))
        ++ [Instr.endProgram] := by
    simp [pngToGcode, footer]
  rw [heq, List.getLast?_concat]

/-! ### Claim theorems -/

/-- C1 counterexample: the claim says the emitted power for sample 128 with
laserMaxPower 100 is round((1 - 128/255)·100) = 50, but the source applies
Python int() truncation at line 86 and emits 49. -/
theorem C1_power_round_cex :
    quantize 128 100 = 49 ∧ round ((1 - ((128 : ℕ) : ℚ) / 255) * ((100 : ℤ) : ℚ)) = 50 := by
  constructor
  · exact quantize_mid
  · rw [show (1 - ((128 : ℕ) : ℚ) / 255) * ((100 : ℤ) : ℚ) = 2540 / 51 from by norm_num]
    rw [round_eq]
    rw [show (2540 / 51 : ℚ) + 1 / 2 = 5131 / 102 from by norm_num]
    rw [Int.floor_eq_iff]
    norm_num

/-- C1 (amended): for every sample s in [0,255] and laserMaxPower P ≥ 0 the
power emitted for that sample equals the floor (Python int() truncation, not
rounding) of (1 - s/255)·P, which lies in [0, P]; with laserMaxPower = 100 on
a uniform mid-gray (128) image every emitted motion power equals 49. -/
theorem C1_power_is_floor (s : ℕ) (P : ℤ) (hs : s ≤ 255) (hP : 0 ≤ P) :
    quantize s P = ⌊(1 - (s : ℚ) / 255) * (P : ℚ)⌋
    ∧ 0 ≤ quantize s P ∧ quantize s P ≤ P
    ∧ quantize 128 100 = 49
    ∧ ∀ (r : Raster) (fr frr : ℤ) (e y : ℕ) (p : ℤ),
        (∀ x y2, r.pix x y2 = 128) →
        Instr.move e y p ∈ pngToGcode r 100 fr frr → p = 49 := by
  have hcast : (s : ℚ) ≤ 255 := by exact_mod_cast hs
  have hfrac : (0 : ℚ) ≤ 1 - (s : ℚ) / 255 := by
    have hdiv : (s : ℚ) / 255 ≤ 1 := by
      rw [div_le_one (by norm_num)]
      exact hcast
    linarith
  have hq0 : (0 : ℚ) ≤ (1 - (s : ℚ) / 255) * (P : ℚ) :=
    mul_nonneg hfrac (by exact_mod_cast hP)
  have hfloor : quantize s P = ⌊(1 - (s : ℚ) / 255) * (P : ℚ)⌋ := by
    rw [quantize, pyInt, if_pos hq0]
  refine ⟨hfloor, ?_, ?_, quantize_mid, ?_⟩
  · rw [hfloor]
    exact Int.le_floor.mpr (by exact_mod_cast hq0)
  · rw [hfloor]
    have hle1 : 1 - (s : ℚ) / 255 ≤ 1 := by
      have hnn : (0 : ℚ) ≤ (s : ℚ) / 255 := by positivity
      linarith
    have hqP : (1 - (s : ℚ) / 255) * (P : ℚ) ≤ (P : ℚ) :=
      mul_le_of_le_one_left (by exact_mod_cast hP) hle1
    have h2 : ((⌊(1 - (s : ℚ) / 255) * (P : ℚ)⌋ : ℚ)) ≤ (P : ℚ) :=
      le_trans (Int.floor_le _) hqP
    exact_mod_cast h2
  · intro r fr frr e y p hu hm
    obtain ⟨x, hx, hp⟩ := move_mem_pngToGcode hm
    rw [hp, pixAt, hu, quantize_mid]

/-- C1 witness: the amended statement at the concrete input s = 128,
P = 100. -/
theorem C1_power_is_floor_witness :
    quantize 128 100 = ⌊(1 - ((128 : ℕ) : ℚ) / 255) * ((100 : ℤ) : ℚ)⌋
    ∧ 0 ≤ quantize 128 100 ∧ quantize 128 100 ≤ 100
    ∧ quantize 128 100 = 49
    ∧ ∀ (r : Raster) (fr frr : ℤ) (e y : ℕ) (p : ℤ),
        (∀ x y2, r.pix x y2 = 128) →
        Instr.move e y p ∈ pngToGcode r 100 fr frr → p = 49 :=
  C1_power_is_floor 128 100 (by norm_num) (by norm_num)

/-- C2 counterexample: on a 1×1 black image the program has a non-blank row,
yet no laser-on instruction occurs anywhere in it (the source never emits
M3/M4; each row block starts with a row comment instead). -/
theorem C2_laser_on_cex :
    rowBlank ⟨1, 1, fun _ _ => 0⟩ 0 = false
    ∧ Instr.laserOn ∉ pngToGcode ⟨1, 1, fun _ _ => 0⟩ 255 1500 3000 := by
  decide

/-- C2 (amended): no laser-on instruction is ever emitted; for every
non-blank row the emitter appends, in order, a row-label comment, the row
segment motion instructions, a laser-off instruction, a fast-return travel
instruction back to column 0 at fastReturnRate, and a feed-rate restore
instruction, and that block is what the row contributes to the program
body. -/
theorem C2_row_block_order (r : Raster) (P fr frr : ℤ) (y : ℕ)
    (h : rowBlank r y = false) :
    Instr.laserOn ∉ pngToGcode r P fr frr
    ∧ rowBlock r P fr frr y =
        Instr.rowComment y ::
          ((rowMoves (rowPowers r P y)).map fun m => Instr.move m.1 y m.2)
          ++ [Instr.laserOff, Instr.fastReturn y frr, Instr.setFeed fr]
    ∧ (if rowBlank r y then ([] : List Instr) else rowBlock r P fr frr y)
        = rowBlock r P fr frr y :=
  ⟨laserOn_not_mem r P fr frr, rfl, by simp [h]⟩

/-- C2 witness: the amended statement at a concrete 1×1 black raster. -/
theorem C2_row_block_order_witness :
    Instr.laserOn ∉ pngToGcode ⟨1, 1, fun _ _ => 0⟩ 255 1500 3000
    ∧ rowBlock ⟨1, 1, fun _ _ => 0⟩ 255 1500 3000 0 =
        Instr.rowComment 0 ::
          ((rowMoves (rowPowers ⟨1, 1, fun _ _ => 0⟩ 255 0)).map
            fun m => Instr.move m.1 0 m.2)
          ++ [Instr.laserOff, Instr.fastReturn 0 3000, Instr.setFeed 1500]
    ∧ (if rowBlank ⟨1, 1, fun _ _ => 0⟩ 0 then ([] : List Instr)
        else rowBlock ⟨1, 1, fun _ _ => 0⟩ 255 1500 3000 0)
        = rowBlock ⟨1, 1, fun _ _ => 0⟩ 255 1500 3000 0 :=
  C2_row_block_order ⟨1, 1, fun _ _ => 0⟩ 255 1500 3000 0 (by decide)

/-- C3 (confirmed): for every raster whose samples are all white (255), the
compiled program is exactly the thumbnail header block, the fixed preamble
and the fixed footer — zero row blocks, every row elided. -/
theorem C3_all_white (r : Raster) (P fr frr : ℤ)
    (hw : ∀ x y, x < r.w → y < r.h → r.pix x y = 255) :
    pngToGcode r P fr frr =
      [Instr.thumbnailBlock r.w r.h, Instr.setUnits, Instr.absPos, Instr.laserOff,
       Instr.setFeed fr, Instr.returnOrigin, Instr.laserOff, Instr.endProgram] := by
  have hb : ∀ y, y < r.h → rowBlank r y = true := by
    intro y hy
    rw [rowBlank, List.all_eq_true]
    intro x hx
    rw [List.mem_range] at hx
    have hr : vFlip r.h y < r.h := Nat.mod_lt _ (by omega)
    simp [pixAt, hw x (vFlip r.h y) hx hr]
  have hbody : gBody r P fr frr = [] := by
    rw [gBody, List.flatMap_eq_nil_iff]
    intro y hy
    rw [List.mem_range] at hy
    simp [hb y hy]
  simp [pngToGcode, preamble, footer, hbody]

/-- C3 witness: the statement at a concrete all-white 2×2 raster. -/
theorem C3_all_white_witness :
    pngToGcode ⟨2, 2, fun _ _ => 255⟩ 255 1500 3000 =
      [Instr.thumbnailBlock 2 2, Instr.setUnits, Instr.absPos, Instr.laserOff,
       Instr.setFeed 1500, Instr.returnOrigin, Instr.laserOff, Instr.endProgram] :=
  C3_all_white ⟨2, 2, fun _ _ => 255⟩ 255 1500 3000 (fun _ _ _ _ => rfl)

/-- C4 (confirmed): for every raster whose samples are all black (0) and
whose width is positive, every row is non-blank and its run-length pass
emits exactly one motion pair spanning the whole row, carrying power equal
to laserMaxPower, so the row block is the comment, that single motion
instruction, laser off, fast return and feed restore. -/
theorem C4_all_black (r : Raster) (P fr frr : ℤ) (y : ℕ)
    (hb : ∀ x y2, x < r.w → y2 < r.h → r.pix x y2 = 0)
    (hw : 0 < r.w) (hy : y < r.h) :
    rowBlank r y = false
    ∧ rowMoves (rowPowers r P y) = [(r.w - 1, P)]
    ∧ rowBlock r P fr frr y =
        [Instr.rowComment y, Instr.move (r.w - 1) y P, Instr.laserOff,
         Instr.fastReturn y frr, Instr.setFeed fr] := by
  have hpix : ∀ x, x < r.w → pixAt r x y = 0 := by
    intro x hx
    rw [pixAt]
    exact hb x _ hx (Nat.mod_lt _ (by omega))
  have hblank : rowBlank r y = false := by
    rw [rowBlank, List.all_eq_false]
    exact ⟨0, List.mem_range.mpr hw, by simp [hpix 0 hw]⟩
  have hlen : (rowPowers r P y).length = r.w := rowPowers_length r P y
  have hps : rowPowers r P y = List.replicate r.w P := by
    have hrep := List.eq_replicate_of_mem (l := rowPowers r P y) (a := P) ?_
    · rw [hlen] at hrep
      exact hrep
    · intro b hbmem
      simp only [rowPowers, List.mem_map, List.mem_range] at hbmem
      obtain ⟨x, hx, hbx⟩ := hbmem
      rw [← hbx, hpix x hx, quantize_zero]
  have hmv : rowMoves (rowPowers r P y) = [(r.w - 1, P)] := by
    rw [hps]
    obtain ⟨k, hk⟩ : ∃ k, r.w = k + 1 := ⟨r.w - 1, by omega⟩
    rw [hk, List.replicate_succ]
    rw [show rowMoves (P :: List.replicate k P) = closeRuns P 1 (List.replicate k P)
      from rfl]
    rw [closeRuns_replicate]
    have : 1 + k - 1 = k + 1 - 1 := by omega
    rw [this]
  refine ⟨hblank, hmv, ?_⟩
  rw [rowBlock, hmv]
  rfl

/-- C4 witness: the statement at a concrete all-black 2×2 raster, row 1. -/
theorem C4_all_black_witness :
    rowBlank ⟨2, 2, fun _ _ => 0⟩ 1 = false
    ∧ rowMoves (rowPowers ⟨2, 2, fun _ _ => 0⟩ 255 1) = [(1, 255)]
    ∧ rowBlock ⟨2, 2, fun _ _ => 0⟩ 255 1500 3000 1 =
        [Instr.rowComment 1, Instr.move 1 1 255, Instr.laserOff,
         Instr.fastReturn 1 3000, Instr.setFeed 1500] :=
  C4_all_black ⟨2, 2, fun _ _ => 0⟩ 255 1500 3000 1 (fun _ _ _ _ => rfl)
    (by decide) (by decide)

/-- C5 (confirmed): for every non-blank row, the number of motion pairs the
run-length pass emits equals the number of maximal constant-power runs of
the row quantized samples, and that count is at most the row width. -/
theorem C5_run_length_count (r : Raster) (P : ℤ) (y : ℕ)
    (_h : rowBlank r y = false) :
    (rowMoves (rowPowers r P y)).length = runCount (rowPowers r P y)
    ∧ runCount (rowPowers r P y) ≤ r.w := by
  constructor
  · rw [runCount, ← rowMoves_map_snd, List.length_map]
  · calc runCount (rowPowers r P y) = (runValues (rowPowers r P y)).length := rfl
      _ ≤ (rowPowers r P y).length := runValues_length_le _
      _ = r.w := rowPowers_length r P y

/-- C5 witness: the statement at a concrete 3-wide row with samples
black, white, black. -/
theorem C5_run_length_count_witness :
    (rowMoves (rowPowers ⟨3, 1, fun x _ => if x = 1 then 255 else 0⟩ 255 0)).length
        = runCount (rowPowers ⟨3, 1, fun x _ => if x = 1 then 255 else 0⟩ 255 0)
    ∧ runCount (rowPowers ⟨3, 1, fun x _ => if x = 1 then 255 else 0⟩ 255 0) ≤ 3 :=
  C5_run_length_count ⟨3, 1, fun x _ => if x = 1 then 255 else 0⟩ 255 0 (by decide)

/-- C6 (confirmed): target raster dimensions are computed by floor
(Python int() truncation) of src / dpi · 25.4 · linesPerMm; a 2×2 source at
DPI 300 with linesPerMm = 10 yields a 1×1 target raster, and for every
resampler the full pipeline still returns a well-formed program (no
division-by-zero error) whose first line is the 1×1 thumbnail block and
whose last line is the end-of-program marker. -/
theorem C6_floor_scaling (srcW : ℕ) (dpi : ℚ) (lpm : ℤ)
    (hdpi : 0 < dpi) (hlpm : 0 ≤ lpm) :
    newDim srcW dpi lpm = ⌊(srcW : ℚ) / dpi * (254 / 10) * (lpm : ℚ)⌋
    ∧ newDim 2 300 10 = 1
    ∧ ∀ (resample : ℕ → ℕ → ℕ → ℕ → ℕ) (P fr frr : ℤ),
        ∃ g, pngToGcodeFull 2 2 300 resample true P fr frr 10 = Except.ok g
          ∧ g.head? = some (Instr.thumbnailBlock 1 1)
          ∧ g.getLast? = some Instr.endProgram := by
  refine ⟨?_, newDim_two, ?_⟩
  · have hq0 : (0 : ℚ) ≤ (srcW : ℚ) / dpi * mmPerInch * (lpm : ℚ) := by
      have h1 : (0 : ℚ) ≤ (srcW : ℚ) / dpi := by positivity
      have h2 : (0 : ℚ) ≤ (lpm : ℚ) := by exact_mod_cast hlpm
      have h3 : (0 : ℚ) ≤ mmPerInch := by rw [mmPerInch]; norm_num
      exact mul_nonneg (mul_nonneg h1 h3) h2
    rw [newDim, pyInt, if_pos hq0]
    rw [show mmPerInch = (254 / 10 : ℚ) from by rw [mmPerInch]; norm_num]
  · intro resample P fr frr
    refine ⟨pngToGcode ⟨1, 1, resample 1 1⟩ P fr frr, ?_, ?_, ?_⟩
    · rw [pngToGcodeFull]
      rw [if_neg (by norm_num), if_neg (by norm_num)]
      rw [if_neg (by rw [newDim_two]; decide)]
      rw [if_pos rfl]
      rw [show ((newDim 2 300 10).toNat) = 1 from by rw [newDim_two]; rfl]
    · rfl
    · exact pngToGcode_getLast ⟨1, 1, resample 1 1⟩ P fr frr

/-- C6 witness: the floor formula and the degenerate 1×1 scenario at the
concrete input srcW = 2, dpi = 300, linesPerMm = 10. -/
theorem C6_floor_scaling_witness :
    newDim 2 300 10 = ⌊((2 : ℕ) : ℚ) / 300 * (254 / 10) * ((10 : ℤ) : ℚ)⌋
    ∧ newDim 2 300 10 = 1
    ∧ ∀ (resample : ℕ → ℕ → ℕ → ℕ → ℕ) (P fr frr : ℤ),
        ∃ g, pngToGcodeFull 2 2 300 resample true P fr frr 10 = Except.ok g
          ∧ g.head? = some (Instr.thumbnailBlock 1 1)
          ∧ g.getLast? = some Instr.endProgram :=
  C6_floor_scaling 2 300 10 (by norm_num) (by norm_num)

/-- C7 counterexample: the claimed addressing rule, image row
new_height − y for every y from 0 to new_height − 1, fails at y = 0: on a
height-2 raster, program row 0 reads image row 0 (Python index −0 is 0),
not image row 2; on `stripRaster` (black top row, white bottom row) program
row 0 is therefore non-blank even though the bottom image row is white. -/
theorem C7_vertical_addressing_cex :
    vFlip 2 0 = 0
    ∧ 2 - 0 ≠ vFlip 2 0
    ∧ rowBlank stripRaster 0 = false
    ∧ pixAt stripRaster 0 0 = stripRaster.pix 0 0 := by
  decide

/-- C7 (amended): the blank-row test and the power quantizer read the
resampled raster through the identical vertical addressing rule, image row
(new_height − y) mod new_height: program row 0 reads image row 0, and every
program row y with 1 ≤ y ≤ new_height reads image row new_height − y, so
the traversal is bottom-to-top only from row 1 on. -/
theorem C7_vertical_addressing (r : Raster) (P : ℤ) (x y : ℕ)
    (hy : 0 < y) (hyh : y ≤ r.h) :
    pixAt r x y = r.pix x (r.h - y)
    ∧ pixAt r x 0 = r.pix x 0
    ∧ rowBlank r y = ((List.range r.w).all fun x2 => r.pix x2 (r.h - y) == 255)
    ∧ rowBlank r 0 = ((List.range r.w).all fun x2 => r.pix x2 0 == 255)
    ∧ rowPowers r P y = ((List.range r.w).map fun x2 => quantize (r.pix x2 (r.h - y)) P)
    ∧ rowPowers r P 0 = ((List.range r.w).map fun x2 => quantize (r.pix x2 0) P) := by
  have hv : vFlip r.h y = r.h - y := Nat.mod_eq_of_lt (by omega)
  have hv0 : vFlip r.h 0 = 0 := by
    rw [vFlip, Nat.sub_zero, Nat.mod_self]
  refine ⟨?_, ?_, ?_, ?_, ?_, ?_⟩ <;>
    simp [pixAt, rowBlank, rowPowers, hv, hv0]

/-- C7 witness: the amended statement at the concrete raster `stripRaster`,
row 1. -/
theorem C7_vertical_addressing_witness :
    pixAt stripRaster 0 1 = stripRaster.pix 0 (stripRaster.h - 1)
    ∧ pixAt stripRaster 0 0 = stripRaster.pix 0 0
    ∧ rowBlank stripRaster 1 =
        ((List.range stripRaster.w).all
          fun x2 => stripRaster.pix x2 (stripRaster.h - 1) == 255)
    ∧ rowBlank stripRaster 0 =
        ((List.range stripRaster.w).all fun x2 => stripRaster.pix x2 0 == 255)
    ∧ rowPowers stripRaster 255 1 =
        ((List.range stripRaster.w).map
          fun x2 => quantize (stripRaster.pix x2 (stripRaster.h - 1)) 255)
    ∧ rowPowers stripRaster 255 0 =
        ((List.range stripRaster.w).map fun x2 => quantize (stripRaster.pix x2 0) 255) :=
  C7_vertical_addressing stripRaster 255 0 1 (by decide) (by decide)

/-- C8 counterexample: with laserMaxPower = 0 and negative feed rates (all
non-positive) on a valid 12×12 image at DPI 300 (target raster 10×10), the
pipeline does not fail at all — it returns a program, so no
InvalidConfigurationError is raised. -/
theorem C8_validation_cex :
    exceptOk (pngToGcodeFull 12 12 300 (fun _ _ _ _ => 0) true 0 (-1) (-1) 10) = true := by
  rw [pngToGcodeFull]
  rw [if_neg (by norm_num), if_neg (by norm_num)]
  rw [if_neg (by rw [newDim_twelve]; decide)]
  rfl

/-- C8 (amended): the source validates nothing. For every laserMaxPower,
feedRate and fastReturnRate — non-positive included — the pipeline
succeeds exactly when linesPerMm ≠ 0, dpi ≠ 0, both computed target
dimensions are at least 1, and the thumbnail encodes. When linesPerMm or
dpi is zero it raises a bare ZeroDivisionError; when a target dimension is
below 1 the Pillow resize raises a bare ValueError; neither
InvalidConfigurationError nor InvalidImageError exists in the code. With
a failing thumbnail encoder it never succeeds. -/
theorem C8_no_validation (srcW srcH : ℕ) (dpi : ℚ) (resample : ℕ → ℕ → ℕ → ℕ → ℕ)
    (P fr frr lpm : ℤ) :
    (exceptOk (pngToGcodeFull srcW srcH dpi resample true P fr frr lpm) = true
      ↔ (lpm ≠ 0 ∧ dpi ≠ 0 ∧ 0 < newDim srcW dpi lpm ∧ 0 < newDim srcH dpi lpm))
    ∧ ((lpm = 0 ∨ dpi = 0) →
        pngToGcodeFull srcW srcH dpi resample true P fr frr lpm
          = Except.error PyError.zeroDivision)
    ∧ (lpm ≠ 0 → dpi ≠ 0 →
        (newDim srcW dpi lpm ≤ 0 ∨ newDim srcH dpi lpm ≤ 0) →
        pngToGcodeFull srcW srcH dpi resample true P fr frr lpm
          = Except.error PyError.valueError)
    ∧ exceptOk (pngToGcodeFull srcW srcH dpi resample false P fr frr lpm) = false := by
  by_cases h1 : lpm = 0
  · refine ⟨?_, ?_, ?_, ?_⟩ <;> simp [pngToGcodeFull, h1, exceptOk]
  by_cases h2 : dpi = 0
  · refine ⟨?_, ?_, ?_, ?_⟩ <;> simp [pngToGcodeFull, h1, h2, exceptOk]
  by_cases h3 : newDim srcW dpi lpm ≤ 0 ∨ newDim srcH dpi lpm ≤ 0
  · refine ⟨?_, ?_, ?_, ?_⟩
    · rw [pngToGcodeFull, if_neg h1, if_neg h2, if_pos h3]
      simp only [exceptOk, Bool.false_eq_true, false_iff]
      rintro ⟨-, -, hc, hd⟩
      omega
    · intro hz
      rcases hz with hz | hz
      · exact absurd hz h1
      · exact absurd hz h2
    · intro _ _ _
      rw [pngToGcodeFull, if_neg h1, if_neg h2, if_pos h3]
    · rw [pngToGcodeFull, if_neg h1, if_neg h2, if_pos h3]
      rfl
  · refine ⟨?_, ?_, ?_, ?_⟩
    · rw [pngToGcodeFull, if_neg h1, if_neg h2, if_neg h3, if_pos rfl]
      exact ⟨fun _ => ⟨h1, h2, by omega, by omega⟩, fun _ => rfl⟩
    · intro hz
      rcases hz with hz | hz
      · exact absurd hz h1
      · exact absurd hz h2
    · intro _ _ hcon
      exact absurd hcon h3
    · rw [pngToGcodeFull, if_neg h1, if_neg h2, if_neg h3]
      rfl

/-- C9 counterexample: on a valid mid-gray 2×2 image at DPI 300 (target
raster 1×1, so the encoder is genuinely reached) whose thumbnail encoding
fails, the run aborts with the propagated failure and no program is
emitted — the toolpath is not recoverable as the claim states. -/
theorem C9_thumbnail_fatal_cex :
    pngToGcodeFull 2 2 300 (fun _ _ _ _ => 128) false 100 1500 3000 10
      = Except.error PyError.thumbnailFailure := by
  rw [pngToGcodeFull]
  rw [if_neg (by norm_num), if_neg (by norm_num)]
  rw [if_neg (by rw [newDim_two]; decide)]
  rfl

/-- C9 (amended): a thumbnail encoding failure is fatal. The source wraps
no try/except around the encoder (lines 15-29), so for every input that
actually reaches it (linesPerMm ≠ 0, dpi ≠ 0 and both computed target
dimensions at least 1, so the resize at line 56 succeeds) a failing
encoder aborts the whole run with the propagated exception and no program,
rather than emitting the toolpath with a warning. -/
theorem C9_thumbnail_fatal (srcW srcH : ℕ) (dpi : ℚ) (resample : ℕ → ℕ → ℕ → ℕ → ℕ)
    (P fr frr lpm : ℤ) (h1 : lpm ≠ 0) (h2 : dpi ≠ 0)
    (h3 : 0 < newDim srcW dpi lpm) (h4 : 0 < newDim srcH dpi lpm) :
    pngToGcodeFull srcW srcH dpi resample false P fr frr lpm
      = Except.error PyError.thumbnailFailure := by
  rw [pngToGcodeFull, if_neg h1, if_neg h2, if_neg (by omega)]
  rfl

/-- C9 witness: the amended statement at a concrete 12×12 black image at
DPI 300 (target raster 10×10) with default options and a failing
encoder. -/
theorem C9_thumbnail_fatal_witness :
    pngToGcodeFull 12 12 300 (fun _ _ _ _ => 0) false 255 1500 3000 10
      = Except.error PyError.thumbnailFailure :=
  C9_thumbnail_fatal 12 12 300 (fun _ _ _ _ => 0) 255 1500 3000 10
    (by norm_num) (by norm_num) (by rw [newDim_twelve]; decide)
    (by rw [newDim_twelve]; decide)

/-- C10 (confirmed): for every non-blank row the emitted motion pairs are
non-empty with strictly increasing end columns, the last one ends at column
new_width − 1 whatever the trailing samples are, every column of the row is
covered (lies at or before some emitted end column), the carried powers are
exactly the values of the maximal constant-power runs — power-0 (white)
runs inside a non-blank row included, since run values are not filtered —
and the motion instructions of the row block are exactly these pairs
rendered at the one shared row index y. -/
theorem C10_segment_coverage (r : Raster) (P fr frr : ℤ) (y : ℕ)
    (h : rowBlank r y = false) :
    rowMoves (rowPowers r P y) ≠ []
    ∧ List.Chain' (fun a b : ℕ × ℤ => a.1 < b.1) (rowMoves (rowPowers r P y))
    ∧ ((rowMoves (rowPowers r P y)).getLast?).map Prod.fst = some (r.w - 1)
    ∧ (∀ c, c < r.w → ∃ m ∈ rowMoves (rowPowers r P y), c ≤ m.1)
    ∧ (rowMoves (rowPowers r P y)).map Prod.snd = runValues (rowPowers r P y)
    ∧ (rowBlock r P fr frr y).filter isMove
        = ((rowMoves (rowPowers r P y)).map fun m => Instr.move m.1 y m.2) := by
  have hwpos : 0 < r.w := rowBlank_false_w_pos h
  have hlen : (rowPowers r P y).length = r.w := rowPowers_length r P y
  have hne : rowPowers r P y ≠ [] := by
    intro hnil
    rw [hnil] at hlen
    simp at hlen
    omega
  obtain ⟨p, rest, hcons⟩ := List.exists_cons_of_ne_nil hne
  have hrm : rowMoves (rowPowers r P y) = closeRuns p 1 rest := by
    rw [hcons]
    rfl
  have hrestlen : r.w = rest.length + 1 := by
    rw [← hlen, hcons]
    simp
  have hlast : ((rowMoves (rowPowers r P y)).getLast?).map Prod.fst
      = some (r.w - 1) := by
    rw [hrm, closeRuns_last]
    congr 1
    omega
  refine ⟨?_, ?_, hlast, ?_, rowMoves_map_snd _, ?_⟩
  · rw [hrm]
    exact closeRuns_ne_nil rest p 1
  · rw [hrm]
    exact closeRuns_chain rest p 1 le_rfl
  · intro c hc
    obtain ⟨m, hm, hfst⟩ := Option.map_eq_some'.mp hlast
    exact ⟨m, List.mem_of_getLast?_eq_some hm, by omega⟩
  · have h3 : ∀ (ms : List (ℕ × ℤ)),
        (ms.map fun m => Instr.move m.1 y m.2).filter isMove
          = ms.map fun m => Instr.move m.1 y m.2 := by
      intro ms
      induction ms with
      | nil => rfl
      | cons a t ih => simp [List.filter_cons, isMove, ih]
    rw [rowBlock]
    rw [show (Instr.rowComment y ::
        ((rowMoves (rowPowers r P y)).map fun m => Instr.move m.1 y m.2)
        ++ [Instr.laserOff, Instr.fastReturn y frr, Instr.setFeed fr]).filter isMove
      = (((rowMoves (rowPowers r P y)).map fun m => Instr.move m.1 y m.2)
        ++ [Instr.laserOff, Instr.fastReturn y frr, Instr.setFeed fr]).filter isMove
      from rfl]
    rw [List.filter_append, h3]
    rw [show List.filter isMove [Instr.laserOff, Instr.fastReturn y frr, Instr.setFeed fr]
      = [] from rfl]
    rw [List.append_nil]

/-- C10 witness: the statement at a concrete 3-wide non-blank row whose
middle sample is white and whose trailing sample is black. -/
theorem C10_segment_coverage_witness :
    rowMoves (rowPowers ⟨3, 1, fun x _ => if x = 1 then 255 else 0⟩ 100 0) ≠ []
    ∧ List.Chain' (fun a b : ℕ × ℤ => a.1 < b.1)
        (rowMoves (rowPowers ⟨3, 1, fun x _ => if x = 1 then 255 else 0⟩ 100 0))
    ∧ ((rowMoves (rowPowers ⟨3, 1, fun x _ => if x = 1 then 255 else 0⟩ 100 0)).getLast?).map
        Prod.fst = some (3 - 1)
    ∧ (∀ c, c < 3 →
        ∃ m ∈ rowMoves (rowPowers ⟨3, 1, fun x _ => if x = 1 then 255 else 0⟩ 100 0),
          c ≤ m.1)
    ∧ (rowMoves (rowPowers ⟨3, 1, fun x _ => if x = 1 then 255 else 0⟩ 100 0)).map
        Prod.snd = runValues (rowPowers ⟨3, 1, fun x _ => if x = 1 then 255 else 0⟩ 100 0)
    ∧ (rowBlock ⟨3, 1, fun x _ => if x = 1 then 255 else 0⟩ 100 1500 3000 0).filter isMove
        = ((rowMoves (rowPowers ⟨3, 1, fun x _ => if x = 1 then 255 else 0⟩ 100 0)).map
            fun m => Instr.move m.1 0 m.2) :=
  C10_segment_coverage ⟨3, 1, fun x _ => if x = 1 then 255 else 0⟩ 100 1500 3000 0
    (by decide)

end LaserCut
